import Mathlib

/-
  Shallow embedding of the lock-freedom library (src/):
    - src/mechanisms/hp.rs        : hazard-pointer registry
    - src/mechanisms/rcu.rs       : single-writer RCU cell
    - src/collections/ms_queue.rs : Michael-Scott queue
    - src/collections/optimistic_ms_queue.rs : Ladan-Mozes/Shavit queue
    - src/collections/treiber_stack.rs : Treiber stack (alignment assertion)
    - src/utils/backoff.rs        : exponential backoff

  Pointers are modelled as natural numbers, 0 encoding null.  Heaps are
  association lists from address to node, newest binding first; `Box::into_raw`
  is modelled by consing a fresh binding, `Box::from_raw` + drop by removing
  the first binding for the address.  Atomic operations are modelled
  sequentially (an uncontended compare-exchange succeeds exactly when the
  compared value equals the current one); loops carry explicit fuel, and a
  `none` result of a fuel-indexed function for every fuel models divergence.
-/

namespace LockFreedom

/-- The `MAX_THREADS` from src/mechanisms/hp.rs. -/
def MAX_THREADS : Nat := 4

/-- The `HP_PER_THREAD` from src/mechanisms/hp.rs. -/
def HP_PER_THREAD : Nat := 16

/-- The `SCAN_THRESHOLD = 2 * HP_PER_THREAD` from src/mechanisms/hp.rs. -/
def SCAN_THRESHOLD : Nat := 2 * HP_PER_THREAD

/-- All-ones value of a `u64`, used for the `!0` literals in hp.rs. -/
def U64_MAX : Nat := 2 ^ 64 - 1

/-- Fuel-bounded count of trailing zero bits. -/
def tzAux : Nat → Nat → Nat
  | 0, _ => 0
  | fuel + 1, n => if n % 2 = 1 then 0 else tzAux fuel (n / 2) + 1

/-- The `u64::trailing_zeros` (returns 64 on input 0). -/
def trailingZeros (n : Nat) : Nat := tzAux 64 n

/-- A `ProtectedPointer`: the protected raw pointer and the slot index inside
    the owning guard's band. -/
structure ProtectedPtr where
  ptr : Nat
  index : Nat
  deriving DecidableEq

/-- The `HazardPointerArray`: the global table of `MAX_THREADS * HP_PER_THREAD`
    pointer slots (0 = null) and the band-registry bitmap (1 bits = free
    bands). -/
structure HPArray where
  p_list : List Nat
  thread_registry : Nat
  deriving DecidableEq

/-- The `HazardPointerArray::new()`. -/
def HPArray.new : HPArray :=
  { p_list := List.replicate (MAX_THREADS * HP_PER_THREAD) 0
    thread_registry := U64_MAX >>> (64 - MAX_THREADS) }

/-- The `HazardPointerGuard`: band start index into the global table, bitmap of
    free slots inside the band (1 bits = free) and the retire list `d_list`. -/
structure GuardState where
  starting_idx : Nat
  available_indices : Nat
  d_list : List Nat
  deriving DecidableEq

/-- The `RegisterThreadError` from hp.rs. -/
inductive RegisterThreadError
  | NoAvailableIndices
  deriving DecidableEq

/-- The `ProtectionError` from hp.rs. -/
inductive ProtectionError
  | NoAvailableIndices
  | NullPointer
  deriving DecidableEq

/-- The `HazardPointerArray::register_thread`, sequential model: the registry load
    and the CAS are not interfered with, so the CAS succeeds on the first
    attempt whenever the registry is non-zero. -/
def registerThread (a : HPArray) : Except RegisterThreadError (HPArray × GuardState) :=
  if a.thread_registry = 0 then .error .NoAvailableIndices
  else
    let tr_first_slot := trailingZeros a.thread_registry
    .ok ({ a with thread_registry := a.thread_registry ^^^ (1 <<< tr_first_slot) },
         { starting_idx := tr_first_slot * HP_PER_THREAD
           available_indices := U64_MAX >>> (64 - HP_PER_THREAD)
           d_list := [] })

/-- The `HazardPointerGuard::protect`: null check, free-slot check, then store into
    the lowest free slot of the band; returns the updated global table, the
    updated guard and the protected-pointer handle. -/
def protect (a : HPArray) (g : GuardState) (data_ptr : Nat) :
    Except ProtectionError (HPArray × GuardState × ProtectedPtr) :=
  if data_ptr = 0 then .error .NullPointer
  else if g.available_indices = 0 then .error .NoAvailableIndices
  else
    let offset := trailingZeros g.available_indices
    .ok ({ a with p_list := a.p_list.set (g.starting_idx + offset) data_ptr },
         { g with available_indices := g.available_indices &&& (U64_MAX ^^^ (1 <<< offset)) },
         { ptr := data_ptr, index := offset })

/-- The `HazardPointerGuard::unprotect`: clear the global slot and return the slot
    bit to the band's free bitmap. -/
def unprotect (a : HPArray) (g : GuardState) (pp : ProtectedPtr) : HPArray × GuardState :=
  ({ a with p_list := a.p_list.set (g.starting_idx + pp.index) 0 },
   { g with available_indices := g.available_indices ||| (1 <<< pp.index) })

/-- Iterated `register_thread`, keeping only the array state. -/
def registerN : Nat → HPArray → Option HPArray
  | 0, a => some a
  | n + 1, a =>
    match registerThread a with
    | .ok (a1, _) => registerN n a1
    | .error _ => none

/-- Rust `Vec::dedup`: removes consecutive duplicate elements. -/
def dedupRs : List Nat → List Nat
  | [] => []
  | [a] => [a]
  | a :: b :: rest => if a = b then dedupRs (b :: rest) else a :: dedupRs (b :: rest)

/-- Rust `slice::sort` (ascending stable sort).  On `Nat` every correct sort
    produces the same output list, so insertion sort is an exact model. -/
def sortRs (l : List Nat) : List Nat := l.insertionSort (· ≤ ·)

/-- Rust `slice::binary_search`, reduced to whether the key is found: the
    standard halving search, probing the middle element of the current
    window. -/
def bsearch (l : List Nat) (t : Nat) : Bool :=
  if h : l = [] then false
  else
    let mid := l.length / 2
    let v := l.getD mid 0
    if v < t then bsearch (l.drop (mid + 1)) t
    else if t < v then bsearch (l.take mid) t
    else true
termination_by l.length
decreasing_by
  all_goals
    have hp : 0 < l.length := List.length_pos.mpr h
    simp only [List.length_drop, List.length_take]
    omega

/-- Result of `HazardPointerGuard::scan`: the snapshot it builds, the retained
    retire list and the pointers it deallocates. -/
structure ScanResult where
  snapshot : List Nat
  kept : List Nat
  freed : List Nat
  deriving DecidableEq

/-- The `HazardPointerGuard::scan`: collect the non-null pointers of the global
    table, `dedup()` them, `sort()` them, then partition the retire list with
    `binary_search`: pointers not found are freed, the rest are kept as the new
    retire list. -/
def scan (p_list : List Nat) (d_list : List Nat) : ScanResult :=
  let snap := sortRs (dedupRs (p_list.filter (fun p => p != 0)))
  { snapshot := snap
    kept := d_list.filter (fun item => bsearch snap item)
    freed := d_list.filter (fun item => !bsearch snap item) }

/-- Guard-level `scan`: replace the retire list by the kept pointers and report
    the freed ones (their heap effect is applied by the caller's heap). -/
def guardScan (a : HPArray) (g : GuardState) : GuardState × List Nat :=
  let r := scan a.p_list g.d_list
  ({ g with d_list := r.kept }, r.freed)

/-- The `HazardPointerGuard::retire_raw_pointer`: push onto the retire list and
    scan when the list length exceeds `SCAN_THRESHOLD`. -/
def retireRaw (a : HPArray) (g : GuardState) (p : Nat) : GuardState × List Nat :=
  let d := g.d_list ++ [p]
  if SCAN_THRESHOLD < d.length then guardScan a { g with d_list := d }
  else ({ g with d_list := d }, [])

/-- The `HazardPointerGuard::retire_node`: `into_raw` consumes the protected
    pointer (its drop clears the slot), then the raw pointer is retired. -/
def retireNode (a : HPArray) (g : GuardState) (pp : ProtectedPtr) :
    HPArray × GuardState × List Nat :=
  let (a1, g1) := unprotect a g pp
  let (g2, freed) := retireRaw a1 g1 pp.ptr
  (a1, g2, freed)

/-- Lookup in an address-to-node association list (newest binding first). -/
def hLookup {ν : Type _} : List (Nat × ν) → Nat → Option ν
  | [], _ => none
  | (a, n) :: rest, x => if a = x then some n else hLookup rest x

/-- Overwrite the newest binding of an address (a store through a pointer). -/
def hUpdate {ν : Type _} : List (Nat × ν) → Nat → ν → List (Nat × ν)
  | [], _, _ => []
  | (a, n) :: rest, x, v => if a = x then (a, v) :: rest else (a, n) :: hUpdate rest x v

/-- Drop the newest binding of an address (`Box::from_raw` + drop). -/
def hRemove {ν : Type _} : List (Nat × ν) → Nat → List (Nat × ν)
  | [], _ => []
  | (a, n) :: rest, x => if a = x then rest else (a, n) :: hRemove rest x

/-- Free every address in the list. -/
def hRemoveAll {ν : Type _} (m : List (Nat × ν)) (ps : List Nat) : List (Nat × ν) :=
  ps.foldl (fun acc p => hRemove acc p) m

/-- The `Node<T>` of ms_queue.rs: payload and forward link. -/
structure MSNode (α : Type _) where
  data : α
  next : Nat
  deriving DecidableEq

/-- The `MSQueue<T>` together with its heap of nodes and an allocation counter
    (fresh addresses are `fresh`, `fresh + 1`, ...; all live addresses are
    below `fresh`). -/
structure MSQueue (α : Type _) where
  head : Nat
  tail : Nat
  mem : List (Nat × MSNode α)
  fresh : Nat
  deriving DecidableEq

/-- The `MSQueue::new()`: a default-initialized sentinel node, head and tail both
    referencing it. -/
def msqNew (α : Type _) [Inhabited α] : MSQueue α :=
  { head := 1, tail := 1, mem := [(1, { data := default, next := 0 })], fresh := 2 }

/-- The retry loop of `MSQueue::enqueue` after the new node is allocated.
    Returns the machine state and the `tail_ptr` value observed by the
    breaking iteration (used by the best-effort tail CAS that follows the
    loop).  `none` models divergence (fuel exhausted) or an undefined
    dereference of a dangling pointer. -/
def msqEnqueueLoop {α : Type _} (new_node : Nat) :
    Nat → MSQueue α → HPArray → GuardState →
    Option (MSQueue α × HPArray × GuardState × Nat)
  | 0, _, _, _ => none
  | fuel + 1, q, a, g =>
    let tail_ptr := q.tail
    match protect a g tail_ptr with
    | .error _ =>
      -- backoff.spin(); continue
      msqEnqueueLoop new_node fuel q a g
    | .ok (a1, g1, pt) =>
      -- fence(Acquire); read (*protected_tail).next
      match hLookup q.mem pt.ptr with
      | none => none
      | some tnode =>
        if tnode.next ≠ 0 then
          -- tail is lagging: best-effort CAS tail to tail.next, then retry
          let q1 := if q.tail = pt.ptr then { q with tail := tnode.next } else q
          let (a2, g2) := unprotect a1 g1 pt
          msqEnqueueLoop new_node fuel q1 a2 g2
        else
          -- CAS t.next from null to new_node; uncontended, the compared value
          -- is the one just read, so it succeeds
          let q1 := { q with mem := hUpdate q.mem pt.ptr { tnode with next := new_node } }
          let (a2, g2) := unprotect a1 g1 pt
          some (q1, a2, g2, tail_ptr)

/-- The `MSQueue::enqueue`: allocate the node, run the linking loop, then the
    best-effort tail-advancing CAS; returns `true`. -/
def msqEnqueue {α : Type _} (fuel : Nat) (q : MSQueue α) (a : HPArray) (g : GuardState)
    (v : α) : Option (MSQueue α × HPArray × GuardState × Bool) :=
  let new_node := q.fresh
  let q0 := { q with mem := (new_node, { data := v, next := 0 }) :: q.mem, fresh := q.fresh + 1 }
  match msqEnqueueLoop new_node fuel q0 a g with
  | none => none
  | some (q1, a1, g1, tail_ptr) =>
    let q2 := if q1.tail = tail_ptr then { q1 with tail := new_node } else q1
    some (q2, a1, g1, true)

/-- The `MSQueue::dequeue` retry loop.  Mirrors the source faithfully, including
    the match on the second `protect`: there the wildcard `Err(_)` arm comes
    before the `Err(ProtectionError::NullPointer)` arm, so a null `head.next`
    is handled by the backoff-and-retry arm, never by the `return None` arm. -/
def msqDequeueLoop {α : Type _} [Inhabited α] :
    Nat → MSQueue α → HPArray → GuardState →
    Option (Option α × MSQueue α × HPArray × GuardState)
  | 0, _, _, _ => none
  | fuel + 1, q, a, g =>
    match protect a g q.head with
    | .error .NoAvailableIndices =>
      -- backoff.spin(); continue
      msqDequeueLoop fuel q a g
    | .error .NullPointer => some (none, q, a, g)
    | .ok (a1, g1, ph) =>
      match hLookup q.mem ph.ptr with
      | none => none
      | some hnode =>
        match protect a1 g1 hnode.next with
        | .error _ =>
          -- the Err(_) arm of the source: backoff.spin(); continue
          -- (drops protected_head, which unprotects it)
          let (a2, g2) := unprotect a1 g1 ph
          msqDequeueLoop fuel q a2 g2
        | .ok (a2, g2, pn) =>
          if q.head ≠ ph.ptr then
            let (a3, g3) := unprotect a2 g2 pn
            let (a4, g4) := unprotect a3 g3 ph
            msqDequeueLoop fuel q a4 g4
          else
            -- CAS head from protected_head to protected_head_next: uncontended
            -- and just validated, so it succeeds
            let q1 := { q with head := pn.ptr }
            -- tail-advancing inner loop (Doherty et al.): uncontended, the CAS
            -- succeeds on the first attempt when tail still equals the old head
            let q2 := if q1.tail = ph.ptr then { q1 with tail := pn.ptr } else q1
            let (a3, g3, freed) := retireNode a2 g2 ph
            let q3 := { q2 with mem := hRemoveAll q2.mem freed }
            match hLookup q3.mem pn.ptr with
            | none => none
            | some nnode =>
              -- std::mem::take the payload of the new sentinel
              let q4 := { q3 with mem := hUpdate q3.mem pn.ptr { nnode with data := default } }
              let (a4, g4) := unprotect a3 g3 pn
              some (some nnode.data, q4, a4, g4)

/-- The `MSQueue::dequeue`. -/
def msqDequeue {α : Type _} [Inhabited α] (fuel : Nat) (q : MSQueue α) (a : HPArray)
    (g : GuardState) : Option (Option α × MSQueue α × HPArray × GuardState) :=
  msqDequeueLoop fuel q a g

/-- The `Node<T>` of optimistic_ms_queue.rs: payload, forward link (toward the
    head) and back link (toward the tail). -/
structure OMSNode (α : Type _) where
  data : α
  next : Nat
  prev : Nat
  deriving DecidableEq

/-- The `OMSQueue<T>` with its heap and allocation counter. -/
structure OMSQueue (α : Type _) where
  head : Nat
  tail : Nat
  mem : List (Nat × OMSNode α)
  fresh : Nat
  deriving DecidableEq

/-- The `OMSQueue::new()`. -/
def omsqNew (α : Type _) [Inhabited α] : OMSQueue α :=
  { head := 1, tail := 1, mem := [(1, { data := default, next := 0, prev := 0 })], fresh := 2 }

/-- The retry loop of `OMSQueue::enqueue` after the new node is allocated.
    A null tail would panic in the source; panics and dangling dereferences
    are modelled as `none`. -/
def omsqEnqueueLoop {α : Type _} (new_node : Nat) :
    Nat → OMSQueue α → HPArray → GuardState →
    Option (OMSQueue α × HPArray × GuardState × Bool)
  | 0, _, _, _ => none
  | fuel + 1, q, a, g =>
    let tail := q.tail
    match protect a g tail with
    | .error .NullPointer => none
    | .error .NoAvailableIndices => omsqEnqueueLoop new_node fuel q a g
    | .ok (a1, g1, pt) =>
      match hLookup q.mem new_node with
      | none => none
      | some nn =>
        -- store new_node.next := tail (Release)
        let q1 := { q with mem := hUpdate q.mem new_node { nn with next := tail } }
        if pt.ptr ≠ q1.tail then
          let (a2, g2) := unprotect a1 g1 pt
          omsqEnqueueLoop new_node fuel q1 a2 g2
        else
          -- CAS tail from protected_tail to new_node: validated, uncontended
          let q2 := { q1 with tail := new_node }
          match hLookup q2.mem pt.ptr with
          | none => none
          | some oldt =>
            -- store old tail's prev := new_node (Release)
            let q3 := { q2 with mem := hUpdate q2.mem pt.ptr { oldt with prev := new_node } }
            let (a2, g2) := unprotect a1 g1 pt
            some (q3, a2, g2, true)

/-- The `OMSQueue::enqueue`: allocate then loop. -/
def omsqEnqueue {α : Type _} (fuel : Nat) (q : OMSQueue α) (a : HPArray) (g : GuardState)
    (v : α) : Option (OMSQueue α × HPArray × GuardState × Bool) :=
  let new_node := q.fresh
  let q0 := { q with
              mem := (new_node, { data := v, next := 0, prev := 0 }) :: q.mem
              fresh := q.fresh + 1 }
  omsqEnqueueLoop new_node fuel q0 a g

/-- The `OMSQueue::fix`: walk from the tail toward the head along `next`,
    re-installing missing `prev` links.  `head` and `current` are the two
    protected pointers moved into the function; when the walk ends both are
    dropped (current first, then head).  Sequentially a failed protect leaves
    the state unchanged, so its retry loop is modelled as divergence. -/
def omsqFix {α : Type _} :
    Nat → OMSQueue α → HPArray → GuardState → ProtectedPtr → ProtectedPtr →
    Option (OMSQueue α × HPArray × GuardState)
  | 0, _, _, _, _, _ => none
  | fuel + 1, q, a, g, head, current =>
    if current.ptr ≠ head.ptr ∧ head.ptr = q.head then
      match hLookup q.mem current.ptr with
      | none => none
      | some cnode =>
        match protect a g cnode.next with
        | .error .NoAvailableIndices => none
        | .error .NullPointer => none
        | .ok (a1, g1, pc) =>
          match hLookup q.mem pc.ptr with
          | none => none
          | some nnode =>
            let q1 :=
              if nnode.prev = 0 then
                { q with mem := hUpdate q.mem pc.ptr { nnode with prev := current.ptr } }
              else q
            let (a2, g2) := unprotect a1 g1 current
            omsqFix fuel q1 a2 g2 head pc
    else
      let (a1, g1) := unprotect a g current
      let (a2, g2) := unprotect a1 g1 head
      some (q, a2, g2)

/-- The `OMSQueue::dequeue` retry loop. -/
def omsqDequeueLoop {α : Type _} [Inhabited α] :
    Nat → OMSQueue α → HPArray → GuardState →
    Option (Option α × OMSQueue α × HPArray × GuardState)
  | 0, _, _, _ => none
  | fuel + 1, q, a, g =>
    match protect a g q.head with
    | .error .NullPointer => none  -- panic in the source
    | .error .NoAvailableIndices => omsqDequeueLoop fuel q a g
    | .ok (a1, g1, ph) =>
      match protect a1 g1 q.tail with
      | .error .NullPointer => none  -- panic in the source
      | .error .NoAvailableIndices =>
        let (a2, g2) := unprotect a1 g1 ph
        omsqDequeueLoop fuel q a2 g2
      | .ok (a2, g2, pt) =>
        if ph.ptr ≠ q.head ∨ pt.ptr ≠ q.tail then
          let (a3, g3) := unprotect a2 g2 pt
          let (a4, g4) := unprotect a3 g3 ph
          omsqDequeueLoop fuel q a4 g4
        else if ph.ptr ≠ pt.ptr then
          match hLookup q.mem ph.ptr with
          | none => none
          | some hnode =>
            if hnode.prev ≠ 0 then
              if ph.ptr ≠ q.head then
                let (a3, g3) := unprotect a2 g2 pt
                let (a4, g4) := unprotect a3 g3 ph
                omsqDequeueLoop fuel q a4 g4
              else
                -- protect head.prev (its retry loop can only diverge
                -- sequentially on slot exhaustion; head.prev ≠ 0 here)
                match protect a2 g2 hnode.prev with
                | .error _ => none
                | .ok (a3, g3, php) =>
                  if q.head ≠ ph.ptr then
                    let (a4, g4) := unprotect a3 g3 php
                    let (a5, g5) := unprotect a4 g4 pt
                    let (a6, g6) := unprotect a5 g5 ph
                    omsqDequeueLoop fuel q a6 g6
                  else
                    -- CAS head from protected_head to protected_head_prev:
                    -- validated and uncontended, so it succeeds
                    let q1 := { q with head := php.ptr }
                    let (a4, g4, freed) := retireNode a3 g3 ph
                    let q2 := { q1 with mem := hRemoveAll q1.mem freed }
                    match hLookup q2.mem php.ptr with
                    | none => none
                    | some pnode =>
                      let q3 := { q2 with
                                  mem := hUpdate q2.mem php.ptr { pnode with data := default } }
                      let (a5, g5) := unprotect a4 g4 php
                      let (a6, g6) := unprotect a5 g5 pt
                      some (some pnode.data, q3, a6, g6)
            else
              match omsqFix fuel q a2 g2 ph pt with
              | none => none
              | some (q1, a3, g3) => omsqDequeueLoop fuel q1 a3 g3
        else
          let (a3, g3) := unprotect a2 g2 pt
          let (a4, g4) := unprotect a3 g3 ph
          some (none, q, a4, g4)

/-- The `OMSQueue::dequeue`. -/
def omsqDequeue {α : Type _} [Inhabited α] (fuel : Nat) (q : OMSQueue α) (a : HPArray)
    (g : GuardState) : Option (Option α × OMSQueue α × HPArray × GuardState) :=
  omsqDequeueLoop fuel q a g

/-- The end-to-end scenario on the Michael-Scott queue: register a guard on a
    fresh array, enqueue 1, 2, 3, 4, then dequeue four times, collecting the
    four results. -/
def msqScenario : Option (List (Option Nat)) := do
  let (a0, g0) ← (registerThread HPArray.new).toOption
  let q0 := msqNew Nat
  let (q1, a1, g1, _) ← msqEnqueue 8 q0 a0 g0 1
  let (q2, a2, g2, _) ← msqEnqueue 8 q1 a1 g1 2
  let (q3, a3, g3, _) ← msqEnqueue 8 q2 a2 g2 3
  let (q4, a4, g4, _) ← msqEnqueue 8 q3 a3 g3 4
  let (r1, q5, a5, g5) ← msqDequeue 8 q4 a4 g4
  let (r2, q6, a6, g6) ← msqDequeue 8 q5 a5 g5
  let (r3, q7, a7, g7) ← msqDequeue 8 q6 a6 g6
  let (r4, _, _, _) ← msqDequeue 8 q7 a7 g7
  pure [r1, r2, r3, r4]

/-- The same end-to-end scenario on the optimistic queue. -/
def omsqScenario : Option (List (Option Nat)) := do
  let (a0, g0) ← (registerThread HPArray.new).toOption
  let q0 := omsqNew Nat
  let (q1, a1, g1, _) ← omsqEnqueue 8 q0 a0 g0 1
  let (q2, a2, g2, _) ← omsqEnqueue 8 q1 a1 g1 2
  let (q3, a3, g3, _) ← omsqEnqueue 8 q2 a2 g2 3
  let (q4, a4, g4, _) ← omsqEnqueue 8 q3 a3 g3 4
  let (r1, q5, a5, g5) ← omsqDequeue 8 q4 a4 g4
  let (r2, q6, a6, g6) ← omsqDequeue 8 q5 a5 g5
  let (r3, q7, a7, g7) ← omsqDequeue 8 q6 a6 g6
  let (r4, _, _, _) ← omsqDequeue 8 q7 a7 g7
  pure [r1, r2, r3, r4]

/-- The `Rcu<T>` together with its heap (addresses of `Box<T>` allocations, all
    even since `align_of::<T>() ≥ 2` is asserted at construction) and the
    calling thread's `THREAD_RECORD` entry for this cell (the pair of nested
    read counts for epochs 0 and 1; `none` when the map has no entry). -/
structure RcuState (α : Type _) where
  ptr_and_epoch : Nat
  previous_ptr : Nat
  readers0 : Nat
  readers1 : Nat
  record : Option (Nat × Nat)
  mem : List (Nat × α)
  fresh : Nat
  deriving DecidableEq

/-- The reader counter of an epoch. -/
def readersGet {α : Type _} (st : RcuState α) (e : Nat) : Nat :=
  if e = 0 then st.readers0 else st.readers1

/-- Increment the reader counter of an epoch. -/
def readersBump {α : Type _} (st : RcuState α) (e : Nat) : RcuState α :=
  if e = 0 then { st with readers0 := st.readers0 + 1 }
  else { st with readers1 := st.readers1 + 1 }

/-- Clearing the low bit of a packed pointer: `x & !CONTROL_BIT`. -/
def clearBit0 (x : Nat) : Nat := 2 * (x / 2)

/-- The `Rcu::new(data)`: allocate the initial box (even address 2), epoch 0. -/
def rcuNew {α : Type _} (data : α) : RcuState α :=
  { ptr_and_epoch := 2, previous_ptr := 0, readers0 := 0, readers1 := 0,
    record := none, mem := [(2, data)], fresh := 2 }

/-- The `RcuReadGuard`: the pinned raw address and epoch. -/
structure RcuReadGuard where
  ptr : Nat
  epoch : Nat
  deriving DecidableEq

/-- The `Rcu::read`: load the packed pointer, extract the epoch, bump the shared
    reader counter on the first nested read of that epoch, bump the
    thread-local nested count, and return a guard pinning the unpacked
    address. -/
def rcuRead {α : Type _} (st : RcuState α) : RcuReadGuard × RcuState α :=
  let pe := st.ptr_and_epoch
  let epoch := pe &&& 1
  let (st1, r) :=
    match st.record with
    | some r =>
      if (if epoch = 0 then r.1 else r.2) = 0 then (readersBump st epoch, r) else (st, r)
    | none => (readersBump st epoch, (0, 0))
  let r1 := if epoch = 0 then (r.1 + 1, r.2) else (r.1, r.2 + 1)
  ({ ptr := clearBit0 pe, epoch := epoch }, { st1 with record := some r1 })

/-- Dereference of an `RcuReadGuard`. -/
def rcuDeref {α : Type _} (st : RcuState α) (g : RcuReadGuard) : Option α :=
  hLookup st.mem g.ptr

/-- The `Rcu::synchronize`: spin until the readers of `sync_epoch` drain
    (sequentially a non-zero counter never drains, modelled as `none`), then
    swap the previous-pointer slot and free the displaced pointer when it is
    non-null and different from `ptr`. -/
def rcuSynchronize {α : Type _} (st : RcuState α) (sync_epoch : Nat) (p : Nat) :
    Option (RcuState α) :=
  if readersGet st sync_epoch ≠ 0 then none
  else
    let previous_ptr := st.previous_ptr
    let st1 := { st with previous_ptr := p }
    some (if previous_ptr ≠ 0 ∧ previous_ptr ≠ p
          then { st1 with mem := hRemove st1.mem previous_ptr } else st1)

/-- The `Rcu::try_synchronize`: the non-blocking variant. -/
def rcuTrySynchronize {α : Type _} (st : RcuState α) (sync_epoch : Nat) (p : Nat) :
    Bool × RcuState α :=
  if readersGet st sync_epoch ≠ 0 then (false, st)
  else
    let previous_ptr := st.previous_ptr
    let st1 := { st with previous_ptr := p }
    (true, if previous_ptr ≠ 0 ∧ previous_ptr ≠ p
           then { st1 with mem := hRemove st1.mem previous_ptr } else st1)

/-- The `Rcu::update`: allocate the replacement box, synchronize the next epoch,
    CAS-install the new packed pointer (uncontended, so the CAS succeeds on
    the first attempt). -/
def rcuUpdate {α : Type _} (st : RcuState α) (data : α) : Option (RcuState α) :=
  let new_data_ptr := 2 * st.fresh
  let st0 := { st with mem := (new_data_ptr, data) :: st.mem, fresh := st.fresh + 1 }
  let cur := st0.ptr_and_epoch
  let next_epoch := (cur &&& 1) ^^^ 1
  let cur_ptr := clearBit0 cur
  match rcuSynchronize st0 next_epoch cur_ptr with
  | none => none
  | some st1 => some { st1 with ptr_and_epoch := new_data_ptr ||| next_epoch }

/-- The `Rcu::try_update`: the non-blocking variant.  `vAtCas` is the value the
    atomic holds when the CAS executes (a concurrent writer may have changed
    it after the initial load); the CAS succeeds exactly when it still equals
    the loaded value. -/
def rcuTryUpdate {α : Type _} (st : RcuState α) (data : α) (vAtCas : Nat) :
    Bool × RcuState α :=
  let cur := st.ptr_and_epoch
  let next_epoch := (cur &&& 1) ^^^ 1
  let cur_ptr := clearBit0 cur
  match rcuTrySynchronize st next_epoch cur_ptr with
  | (false, st1) => (false, st1)
  | (true, st1) =>
    let new_data_ptr := 2 * st1.fresh
    let st2 := { st1 with
                 mem := (new_data_ptr, data) :: st1.mem
                 fresh := st1.fresh + 1 }
    let st3 := { st2 with ptr_and_epoch := vAtCas }
    if vAtCas = cur then
      (true, { st3 with ptr_and_epoch := new_data_ptr ||| next_epoch })
    else
      (false, { st3 with mem := hRemove st3.mem new_data_ptr })

/-- The `Backoff` from src/utils/backoff.rs. -/
structure Backoff where
  initial : Nat
  threshold : Nat
  current : Nat
  deriving DecidableEq

/-- One observable step of a backoff wait. -/
inductive SpinEffect
  | pause
  | yieldNow
  deriving DecidableEq

/-- The `Backoff::with_params` (its asserts hold for the arguments used in the
    library: initial = 1, threshold_exponent = 7). -/
def Backoff.withParams (initial threshold_exponent : Nat) : Backoff :=
  { initial := initial, threshold := 1 <<< threshold_exponent, current := initial }

/-- The `Backoff::new()`. -/
def Backoff.new : Backoff := Backoff.withParams 1 7

/-- The `Backoff::spin`: busy-loop `current` times with the CPU pause hint, then
    double `current` if it is still below the threshold.  Returns the trace of
    effects together with the updated state. -/
def Backoff.spin (b : Backoff) : List SpinEffect × Backoff :=
  (List.replicate b.current .pause,
   if b.current < b.threshold then { b with current := b.current <<< 1 } else b)

/-- Modelled from the spec: `Backoff::spin_yield` is called by `Rcu::update`
    and `Rcu::synchronize` but its body is absent from src/utils/backoff.rs.
    Spec 4.1: "`spin_yield()` additionally yields the OS thread after the
    spin." -/
def Backoff.spinYield (b : Backoff) : List SpinEffect × Backoff :=
  let (tr, b1) := b.spin
  (tr ++ [.yieldNow], b1)

/-- The `Backoff::reset`. -/
def Backoff.reset (b : Backoff) : Backoff := { b with current := b.initial }

/-- The assertion at the top of `TreiberStack::push`, as a function of
    `align_of::<T>()`: `assert_ne!(align_of::<T>() & 1, 1, ...)`; `true` means
    the assertion passes, `false` means the thread panics. -/
def treiberPushAssertPasses (alignT : Nat) : Bool := !(alignT &&& 1 == 1)

/-- Alignment of `Node<T> { data: T, next: AtomicPtr<Node<T>> }` on the 64-bit
    targets the crate supports: the maximum of the field alignments, where
    `AtomicPtr` has alignment 8. -/
def nodeAlign (alignT : Nat) : Nat := max alignT 8

/-- The fuel-bounded trailing-zeros count finds the least set bit. -/
theorem tzAux_spec (fuel : Nat) : ∀ n, n ≠ 0 → n < 2 ^ fuel →
    Nat.testBit n (tzAux fuel n) = true ∧
      ∀ j, j < tzAux fuel n → Nat.testBit n j = false := by
  induction fuel with
  | zero =>
    intro n hn hlt
    simp only [pow_zero] at hlt
    exact absurd (by omega : n = 0) hn
  | succ fuel ih =>
    intro n hn hlt
    by_cases h : n % 2 = 1
    · refine ⟨by simp [tzAux, h], ?_⟩
      intro j hj
      simp [tzAux, h] at hj
    · have hd : n / 2 ≠ 0 := by omega
      have hlt2 : n / 2 < 2 ^ fuel := by
        have h2 : 2 ^ (fuel + 1) = 2 ^ fuel * 2 := by rw [Nat.pow_succ]
        omega
      obtain ⟨ih1, ih2⟩ := ih (n / 2) hd hlt2
      have heq : tzAux (fuel + 1) n = tzAux fuel (n / 2) + 1 := by simp [tzAux, h]
      refine ⟨by rw [heq, Nat.testBit_add_one]; exact ih1, ?_⟩
      intro j hj
      rw [heq] at hj
      match j with
      | 0 => simp [h]
      | j + 1 => rw [Nat.testBit_add_one]; exact ih2 j (by omega)

/-- The `trailing_zeros` of a non-zero `u64` is its least set bit. -/
theorem trailingZeros_spec (n : Nat) (hn : n ≠ 0) (hlt : n < 2 ^ 64) :
    Nat.testBit n (trailingZeros n) = true ∧
      ∀ j, j < trailingZeros n → Nat.testBit n j = false :=
  tzAux_spec 64 n hn hlt

/-- The `trailing_zeros` of a non-zero `u64` is below 64. -/
theorem trailingZeros_lt (n : Nat) (hn : n ≠ 0) (hlt : n < 2 ^ 64) :
    trailingZeros n < 64 := by
  have h := (trailingZeros_spec n hn hlt).1
  by_contra hge
  have hbig : n < 2 ^ trailingZeros n :=
    lt_of_lt_of_le hlt (Nat.pow_le_pow_right (by norm_num) (by omega))
  rw [Nat.testBit_lt_two_pow hbig] at h
  exact absurd h (by simp)

/-- C4: `protect(p)` fails `NullPointer` on a null pointer; with a free slot in
    the band it stores `p` into the lowest-indexed free slot (the bit
    `trailingZeros available_indices`, which is set while all lower bits are
    clear), marks that slot used (its bit becomes 0, every other in-range bit
    unchanged) and returns a handle carrying `p`; with no free slot it fails
    `NoAvailableIndices` (the spec's NoSlot) producing no state change. -/
theorem protect_spec (a : HPArray) (g : GuardState) (p : Nat)
    (hu : g.available_indices < 2 ^ 64) :
    (p = 0 → protect a g p = .error .NullPointer)
  ∧ (p ≠ 0 → g.available_indices = 0 → protect a g p = .error .NoAvailableIndices)
  ∧ (p ≠ 0 → g.available_indices ≠ 0 →
       Nat.testBit g.available_indices (trailingZeros g.available_indices) = true
     ∧ (∀ j, j < trailingZeros g.available_indices →
          Nat.testBit g.available_indices j = false)
     ∧ protect a g p = .ok
         ({ a with p_list :=
             a.p_list.set (g.starting_idx + trailingZeros g.available_indices) p },
          { g with available_indices :=
             g.available_indices &&& (U64_MAX ^^^ (1 <<< trailingZeros g.available_indices)) },
          { ptr := p, index := trailingZeros g.available_indices })
     ∧ Nat.testBit
         (g.available_indices &&& (U64_MAX ^^^ (1 <<< trailingZeros g.available_indices)))
         (trailingZeros g.available_indices) = false
     ∧ (∀ j, j < 64 → j ≠ trailingZeros g.available_indices →
          Nat.testBit
            (g.available_indices &&& (U64_MAX ^^^ (1 <<< trailingZeros g.available_indices)))
            j = Nat.testBit g.available_indices j)) := by
  refine ⟨fun hp => by simp [protect, hp], fun hp ha => by simp [protect, hp, ha], ?_⟩
  intro hp ha
  obtain ⟨hbit, hlow⟩ := trailingZeros_spec g.available_indices ha hu
  have hofflt : trailingZeros g.available_indices < 64 := trailingZeros_lt _ ha hu
  have hoff : 1 <<< trailingZeros g.available_indices = 2 ^ trailingZeros g.available_indices := by
    rw [Nat.shiftLeft_eq, one_mul]
  have hmask : ∀ j, Nat.testBit U64_MAX j = decide (j < 64) := fun j => by
    rw [show U64_MAX = 2 ^ 64 - 1 from rfl]
    exact Nat.testBit_two_pow_sub_one 64 j
  refine ⟨hbit, hlow, by simp [protect, hp, ha], ?_, ?_⟩
  · simp [hoff, Nat.testBit_and, Nat.testBit_xor, hmask, Nat.testBit_two_pow, hofflt]
  · intro j hj hjo
    simp [hoff, Nat.testBit_and, Nat.testBit_xor, hmask, Nat.testBit_two_pow, hj,
      Ne.symm hjo]

/-- Witness for `protect_spec`: protecting pointer 5 on a fresh band succeeds
    and stores into slot 0. -/
theorem protect_spec_witness :
    protect HPArray.new { starting_idx := 0, available_indices := 65535, d_list := [] } 5
      = .ok
        ({ HPArray.new with p_list :=
            HPArray.new.p_list.set (0 + trailingZeros 65535) 5 },
         { starting_idx := 0,
           available_indices := 65535 &&& (U64_MAX ^^^ (1 <<< trailingZeros 65535)),
           d_list := [] },
         { ptr := 5, index := trailingZeros 65535 }) :=
  ((protect_spec HPArray.new { starting_idx := 0, available_indices := 65535, d_list := [] } 5
      (by norm_num)).2.2 (by decide) (by decide)).2.2.1

/-- C5: a successful `register_thread` claims exactly one bit of the band
    bitmap (the least set bit is cleared, every other bit unchanged) and
    returns a guard for that band with all 16 slots free; starting from a
    fresh array, four registrations succeed and empty the bitmap, and a fifth
    returns the registration error instead of blocking. -/
theorem register_thread_spec :
    (∀ a : HPArray, a.thread_registry ≠ 0 → a.thread_registry < 2 ^ 64 →
       Nat.testBit a.thread_registry (trailingZeros a.thread_registry) = true
     ∧ registerThread a = .ok
         ({ a with thread_registry :=
             a.thread_registry ^^^ (1 <<< trailingZeros a.thread_registry) },
          { starting_idx := trailingZeros a.thread_registry * HP_PER_THREAD,
            available_indices := U64_MAX >>> (64 - HP_PER_THREAD),
            d_list := [] })
     ∧ Nat.testBit (a.thread_registry ^^^ (1 <<< trailingZeros a.thread_registry))
         (trailingZeros a.thread_registry) = false
     ∧ (∀ j, j ≠ trailingZeros a.thread_registry →
          Nat.testBit (a.thread_registry ^^^ (1 <<< trailingZeros a.thread_registry)) j
            = Nat.testBit a.thread_registry j)
     ∧ (∀ j, j < HP_PER_THREAD →
          Nat.testBit (U64_MAX >>> (64 - HP_PER_THREAD)) j = true))
  ∧ registerN 4 HPArray.new
      = some { p_list := List.replicate (MAX_THREADS * HP_PER_THREAD) 0, thread_registry := 0 }
  ∧ registerThread
      { p_list := List.replicate (MAX_THREADS * HP_PER_THREAD) 0, thread_registry := 0 }
      = .error .NoAvailableIndices := by
  refine ⟨?_, by decide, by simp [registerThread]⟩
  intro a ha hu
  obtain ⟨hbit, _⟩ := trailingZeros_spec a.thread_registry ha hu
  have hoff : 1 <<< trailingZeros a.thread_registry
      = 2 ^ trailingZeros a.thread_registry := by
    rw [Nat.shiftLeft_eq, one_mul]
  refine ⟨hbit, by simp [registerThread, ha], ?_, ?_, by decide⟩
  · simp [hoff, Nat.testBit_xor, Nat.testBit_two_pow, hbit]
  · intro j hj
    simp [hoff, Nat.testBit_xor, Nat.testBit_two_pow, Ne.symm hj]

/-- Witness for `register_thread_spec`: registering on a fresh array claims
    band 0 and yields a guard with the full free-slot bitmap. -/
theorem register_thread_spec_witness :
    registerThread HPArray.new = .ok
      ({ HPArray.new with thread_registry :=
          HPArray.new.thread_registry ^^^ (1 <<< trailingZeros HPArray.new.thread_registry) },
       { starting_idx := trailingZeros HPArray.new.thread_registry * HP_PER_THREAD,
         available_indices := U64_MAX >>> (64 - HP_PER_THREAD),
         d_list := [] }) :=
  (register_thread_spec.1 HPArray.new (by decide) (by decide)).2.1

/-- C1: on the empty queue (head and tail at the sentinel, sentinel next null)
    `MSQueue::dequeue` never returns, for any guard and any amount of fuel: a
    null `head.next` is captured by the wildcard `Err(_)` arm that precedes
    the `Err(NullPointer) => return None` arm, so the loop backs off and
    retries forever instead of returning `None` as the spec requires. -/
theorem msq_dequeue_empty_diverges :
    ∀ (fuel : Nat) (a : HPArray) (g : GuardState),
      msqDequeue fuel (msqNew Nat) a g = none := by
  intro fuel
  induction fuel with
  | zero => intro a g; rfl
  | succ fuel ih =>
    intro a g
    show msqDequeueLoop (fuel + 1) (msqNew Nat) a g = none
    by_cases hg : g.available_indices = 0
    · have hp : protect a g (msqNew Nat).head = .error .NoAvailableIndices := by
        simp [protect, msqNew, hg]
      simp only [msqDequeueLoop, hp]
      exact ih a g
    · have hp : protect a g (msqNew Nat).head = .ok
          ({ a with p_list :=
              a.p_list.set (g.starting_idx + trailingZeros g.available_indices) 1 },
           { g with available_indices :=
              g.available_indices &&& (U64_MAX ^^^ (1 <<< trailingZeros g.available_indices)) },
           { ptr := 1, index := trailingZeros g.available_indices }) := by
        simp [protect, msqNew, hg]
      simp only [msqDequeueLoop, hp]
      have hlook : hLookup (msqNew Nat).mem 1 = some { data := 0, next := 0 } := rfl
      simp only [hlook]
      have hnull : ∀ (a1 : HPArray) (g1 : GuardState),
          protect a1 g1 0 = .error .NullPointer := by intro a1 g1; rfl
      simp only [hnull]
      exact ih _ _

/-- Helper for C10 (optimistic flavor): whenever the enqueue loop returns, the
    returned flag is `true`. -/
theorem omsqEnqueueLoop_flag {α : Type _} (new_node : Nat) :
    ∀ (fuel : Nat) (q : OMSQueue α) (a : HPArray) (g : GuardState),
      ((omsqEnqueueLoop new_node fuel q a g).all fun r => r.2.2.2) = true := by
  intro fuel
  induction fuel with
  | zero => intro q a g; rfl
  | succ fuel ih =>
    intro q a g
    simp only [omsqEnqueueLoop]
    cases protect a g q.tail with
    | error e => cases e <;> simp [ih]
    | ok t =>
      obtain ⟨a1, g1, pt⟩ := t
      cases hLookup q.mem new_node with
      | none => rfl
      | some nn =>
        simp only
        split
        · exact ih _ _ _
        · cases hLookup
            (hUpdate q.mem new_node { nn with next := q.tail }) pt.ptr <;> simp

/-- C10: for every state, guard and value, neither `MSQueue::enqueue` nor
    `OMSQueue::enqueue` can return `false`: whenever the fuel-bounded run
    returns at all, its boolean result is `true`. -/
theorem enqueue_never_reports_failure :
    (∀ (α : Type) (fuel : Nat) (q : MSQueue α) (a : HPArray) (g : GuardState) (v : α),
       ((msqEnqueue fuel q a g v).all fun r => r.2.2.2) = true)
  ∧ (∀ (α : Type) (fuel : Nat) (q : OMSQueue α) (a : HPArray) (g : GuardState) (v : α),
       ((omsqEnqueue fuel q a g v).all fun r => r.2.2.2) = true) := by
  constructor
  · intro α fuel q a g v
    cases h : msqEnqueueLoop q.fresh fuel
        { q with mem := (q.fresh, { data := v, next := 0 }) :: q.mem, fresh := q.fresh + 1 }
        a g with
    | none => simp [msqEnqueue, h]
    | some r => obtain ⟨q1, a1, g1, tp⟩ := r; simp [msqEnqueue, h]
  · intro α fuel q a g v
    exact omsqEnqueueLoop_flag q.fresh fuel _ a g

/-- C3: on a fresh queue of either flavor with one registered guard,
    sequentially enqueueing 1, 2, 3, 4 and then dequeueing four times yields
    Some(1), Some(2), Some(3), Some(4) in that order. -/
theorem scenario_both_queues :
    msqScenario = some [some 1, some 2, some 3, some 4]
  ∧ omsqScenario = some [some 1, some 2, some 3, some 4] := by
  constructor <;> rfl

/-- Packing an even address with epoch bit 1. -/
theorem lor_one_of_even {a : Nat} (h : a % 2 = 0) : a ||| 1 = a + 1 := by
  have h1 : (a ||| 1) % 2 = 1 := by simp
  have h2 : (a ||| 1) / 2 = a / 2 := by rw [Nat.or_div_two]; simp
  omega

/-- Looking up the newest binding. -/
theorem hLookup_cons_self {ν : Type _} (x : Nat) (v : ν) (m : List (Nat × ν)) :
    hLookup ((x, v) :: m) x = some v := by simp [hLookup]

/-- Freeing another address keeps the newest binding in front. -/
theorem hRemove_cons_ne {ν : Type _} {x p : Nat} (h : x ≠ p) (v : ν) (m : List (Nat × ν)) :
    hRemove ((x, v) :: m) p = (x, v) :: hRemove m p := by simp [hRemove, h]

/-- Freeing the newest binding. -/
theorem hRemove_cons_self {ν : Type _} (x : Nat) (v : ν) (m : List (Nat × ν)) :
    hRemove ((x, v) :: m) x = m := by simp [hRemove]

/-- The `Rcu::read` pins the unpacked current address. -/
theorem rcuRead_ptr {α : Type _} (st : RcuState α) :
    (rcuRead st).1.ptr = clearBit0 st.ptr_and_epoch := by
  unfold rcuRead readersBump
  cases st.record <;> simp

/-- The `Rcu::read` leaves the heap unchanged. -/
theorem rcuRead_mem {α : Type _} (st : RcuState α) :
    (rcuRead st).2.mem = st.mem := by
  unfold rcuRead readersBump
  cases st.record with
  | none => simp; split_ifs <;> simp
  | some r => simp; split_ifs <;> simp

/-- C6: on an uncontended cell (no active readers of either epoch, and a
    well-formed previous pointer, i.e. one below the allocation frontier),
    `update(y)` succeeds and a subsequent `read()` returns a guard whose
    dereference is `y`. -/
theorem rcu_update_then_read {α : Type _} (st : RcuState α) (y : α)
    (h0 : st.readers0 = 0) (h1 : st.readers1 = 0)
    (hfr : st.previous_ptr < 2 * st.fresh) :
    ∃ st1, rcuUpdate st y = some st1
      ∧ rcuDeref (rcuRead st1).2 (rcuRead st1).1 = some y := by
  have he : (st.ptr_and_epoch &&& 1) ^^^ 1 = 1 ∨ (st.ptr_and_epoch &&& 1) ^^^ 1 = 0 := by
    rw [Nat.and_one_is_mod]
    rcases Nat.mod_two_eq_zero_or_one st.ptr_and_epoch with h | h
    · rw [h]; left; rfl
    · rw [h]; right; rfl
  have hne : 2 * st.fresh ≠ st.previous_ptr := by omega
  refine ⟨{ ptr_and_epoch := 2 * st.fresh ||| ((st.ptr_and_epoch &&& 1) ^^^ 1)
            previous_ptr := clearBit0 st.ptr_and_epoch
            readers0 := st.readers0
            readers1 := st.readers1
            record := st.record
            mem := (2 * st.fresh, y) ::
              (if st.previous_ptr ≠ 0 ∧ st.previous_ptr ≠ clearBit0 st.ptr_and_epoch
               then hRemove st.mem st.previous_ptr else st.mem)
            fresh := st.fresh + 1 }, ?_, ?_⟩
  · unfold rcuUpdate rcuSynchronize readersGet
    rcases he with h | h <;>
      simp only [h] <;>
      simp [h0, h1] <;>
      split <;>
      simp [hRemove_cons_ne hne]
  · rw [rcuDeref, rcuRead_mem, rcuRead_ptr]
    have hclear : clearBit0 (2 * st.fresh ||| ((st.ptr_and_epoch &&& 1) ^^^ 1))
        = 2 * st.fresh := by
      rcases he with h | h <;> rw [h]
      · rw [lor_one_of_even (by omega)]
        unfold clearBit0
        omega
      · rw [Nat.or_zero]
        unfold clearBit0
        omega
    simp only [hclear, hLookup_cons_self]

/-- Witness for `rcu_update_then_read`: on a fresh cell holding 0, updating to
    7 and reading back dereferences to 7. -/
theorem rcu_update_then_read_witness :
    ∃ st1, rcuUpdate (rcuNew (0 : Nat)) 7 = some st1
      ∧ rcuDeref (rcuRead st1).2 (rcuRead st1).1 = some 7 :=
  rcu_update_then_read (rcuNew 0) 7 rfl rfl (by decide)

/-- C7: `try_update(new)` returns `false` with the cell completely unchanged
    (in particular, nothing is allocated) when the next epoch still has
    readers; when the next epoch has drained, it runs `try_synchronize`,
    allocates the replacement, and the CAS decides the rest: if the packed
    pointer is unchanged at CAS time the new value is installed and `true` is
    returned, otherwise the freshly allocated replacement is freed again and
    `false` is returned. -/
theorem rcu_try_update_spec {α : Type _} (st : RcuState α) (y : α) (w : Nat) :
    (readersGet st ((st.ptr_and_epoch &&& 1) ^^^ 1) ≠ 0 →
       rcuTryUpdate st y w = (false, st))
  ∧ (readersGet st ((st.ptr_and_epoch &&& 1) ^^^ 1) = 0 → w = st.ptr_and_epoch →
       rcuTryUpdate st y w =
         (true,
          { (rcuTrySynchronize st ((st.ptr_and_epoch &&& 1) ^^^ 1)
               (clearBit0 st.ptr_and_epoch)).2 with
            mem := (2 * (rcuTrySynchronize st ((st.ptr_and_epoch &&& 1) ^^^ 1)
                    (clearBit0 st.ptr_and_epoch)).2.fresh, y) ::
                  (rcuTrySynchronize st ((st.ptr_and_epoch &&& 1) ^^^ 1)
                    (clearBit0 st.ptr_and_epoch)).2.mem
            fresh := (rcuTrySynchronize st ((st.ptr_and_epoch &&& 1) ^^^ 1)
                    (clearBit0 st.ptr_and_epoch)).2.fresh + 1
            ptr_and_epoch := 2 * (rcuTrySynchronize st ((st.ptr_and_epoch &&& 1) ^^^ 1)
                    (clearBit0 st.ptr_and_epoch)).2.fresh |||
                  ((st.ptr_and_epoch &&& 1) ^^^ 1) }))
  ∧ (readersGet st ((st.ptr_and_epoch &&& 1) ^^^ 1) = 0 → w ≠ st.ptr_and_epoch →
       rcuTryUpdate st y w =
         (false,
          { (rcuTrySynchronize st ((st.ptr_and_epoch &&& 1) ^^^ 1)
               (clearBit0 st.ptr_and_epoch)).2 with
            fresh := (rcuTrySynchronize st ((st.ptr_and_epoch &&& 1) ^^^ 1)
                    (clearBit0 st.ptr_and_epoch)).2.fresh + 1
            ptr_and_epoch := w })) := by
  refine ⟨?_, ?_, ?_⟩
  · intro hr
    have hs : rcuTrySynchronize st ((st.ptr_and_epoch &&& 1) ^^^ 1)
        (clearBit0 st.ptr_and_epoch) = (false, st) := by
      unfold rcuTrySynchronize
      rw [if_pos hr]
    simp only [rcuTryUpdate, hs]
  · intro hr hw
    have hs1 : (rcuTrySynchronize st ((st.ptr_and_epoch &&& 1) ^^^ 1)
        (clearBit0 st.ptr_and_epoch)).1 = true := by
      unfold rcuTrySynchronize
      rw [if_neg (not_not_intro hr)]
    cases hsy : rcuTrySynchronize st ((st.ptr_and_epoch &&& 1) ^^^ 1)
        (clearBit0 st.ptr_and_epoch) with
    | mk b st1 =>
      rw [hsy] at hs1
      subst hs1
      simp only [rcuTryUpdate, hsy, hw]
      simp [hRemove_cons_self]
  · intro hr hw
    have hs1 : (rcuTrySynchronize st ((st.ptr_and_epoch &&& 1) ^^^ 1)
        (clearBit0 st.ptr_and_epoch)).1 = true := by
      unfold rcuTrySynchronize
      rw [if_neg (not_not_intro hr)]
    cases hsy : rcuTrySynchronize st ((st.ptr_and_epoch &&& 1) ^^^ 1)
        (clearBit0 st.ptr_and_epoch) with
    | mk b st1 =>
      rw [hsy] at hs1
      subst hs1
      simp only [rcuTryUpdate, hsy]
      rw [if_neg hw]
      simp [hRemove_cons_self]

/-- Witness for `rcu_try_update_spec`: on a cell with an active next-epoch
    reader `try_update` fails leaving the state intact; on a fresh cell it
    installs the new value when the CAS compare matches, and frees the
    replacement and fails when it does not. -/
theorem rcu_try_update_spec_witness :
    rcuTryUpdate
      { ptr_and_epoch := 2, previous_ptr := 0, readers0 := 0, readers1 := 1,
        record := none, mem := [(2, (0 : Nat))], fresh := 2 } 7 2
      = (false,
         { ptr_and_epoch := 2, previous_ptr := 0, readers0 := 0, readers1 := 1,
           record := none, mem := [(2, (0 : Nat))], fresh := 2 })
  ∧ rcuTryUpdate (rcuNew (0 : Nat)) 7 2
      = (true,
         { ptr_and_epoch := 5, previous_ptr := 2, readers0 := 0, readers1 := 0,
           record := none, mem := [(4, 7), (2, 0)], fresh := 3 })
  ∧ rcuTryUpdate (rcuNew (0 : Nat)) 7 9
      = (false,
         { ptr_and_epoch := 9, previous_ptr := 2, readers0 := 0, readers1 := 0,
           record := none, mem := [(2, 0)], fresh := 3 }) :=
  ⟨(rcu_try_update_spec
      { ptr_and_epoch := 2, previous_ptr := 0, readers0 := 0, readers1 := 1,
        record := none, mem := [(2, (0 : Nat))], fresh := 2 } 7 2).1 (by decide),
   (rcu_try_update_spec (rcuNew (0 : Nat)) 7 2).2.1 (by decide) rfl,
   (rcu_try_update_spec (rcuNew (0 : Nat)) 7 9).2.2 (by decide) (by decide)⟩

/-- C8 counterexample: for an element type of alignment 1 (such as `u8`) the
    node alignment is 8 ≥ 2, yet the assertion in `TreiberStack::push` fails,
    because the source asserts `align_of::<T>() & 1 != 1`, the alignment of
    the element type, not of the node. -/
theorem treiber_push_assert_counterexample :
    2 ≤ nodeAlign 1 ∧ treiberPushAssertPasses 1 = false := by decide

/-- C8 amended: `TreiberStack::push` asserts that the alignment of the element
    type `T` (a power of two) is at least 2; the assertion passes exactly when
    `align_of::<T>() ≥ 2` and panics exactly when `align_of::<T>() = 1`. -/
theorem treiber_push_assert_spec (a : Nat) (h : ∃ k, a = 2 ^ k) :
    treiberPushAssertPasses a = true ↔ 2 ≤ a := by
  obtain ⟨k, rfl⟩ := h
  cases k with
  | zero => decide
  | succ k =>
    have hmod : (2 : Nat) ^ (k + 1) % 2 = 0 := by
      have h2 : (2 : Nat) ^ (k + 1) = 2 * 2 ^ k := by ring
      omega
    have hge : 2 ≤ (2 : Nat) ^ (k + 1) := by
      have h2 : (2 : Nat) ^ (k + 1) = 2 * 2 ^ k := by ring
      have h3 : 1 ≤ (2 : Nat) ^ k := Nat.one_le_two_pow
      omega
    simp [treiberPushAssertPasses, Nat.and_one_is_mod, hmod, hge]

/-- Witness for `treiber_push_assert_spec`: alignment 4 passes the assertion. -/
theorem treiber_push_assert_spec_witness :
    treiberPushAssertPasses 4 = true ↔ 2 ≤ 4 :=
  treiber_push_assert_spec 4 ⟨2, rfl⟩

/-- C9: `spin_yield()` performs the same busy-wait of `current` pause
    iterations and the same capped doubling of `current` as `spin()`, and
    additionally yields the OS thread after the spin. -/
theorem backoff_spin_yield_spec (b : Backoff) :
    (b.spinYield).1 = (b.spin).1 ++ [SpinEffect.yieldNow]
  ∧ (b.spin).1 = List.replicate b.current SpinEffect.pause
  ∧ (b.spinYield).2 = (b.spin).2
  ∧ (b.spinYield).2.current
      = (if b.current < b.threshold then b.current * 2 else b.current) := by
  refine ⟨rfl, rfl, rfl, ?_⟩
  simp only [Backoff.spinYield, Backoff.spin]
  split <;> simp [Nat.shiftLeft_eq]

/-- The `Vec::dedup` only removes duplicates, so membership is unchanged. -/
theorem mem_dedupRs : ∀ (l : List Nat) (x : Nat), x ∈ dedupRs l ↔ x ∈ l
  | [], x => by simp [dedupRs]
  | [a], x => by simp [dedupRs]
  | a :: b :: rest, x => by
    by_cases h : a = b
    · rw [show dedupRs (a :: b :: rest) = dedupRs (b :: rest) by simp [dedupRs, h]]
      rw [mem_dedupRs (b :: rest) x]
      subst h
      simp [List.mem_cons]
    · rw [show dedupRs (a :: b :: rest) = a :: dedupRs (b :: rest) by simp [dedupRs, h]]
      simp [List.mem_cons, mem_dedupRs (b :: rest) x]

/-- Correctness of the halving search on a sorted list (duplicates allowed):
    it reports `true` exactly for members. -/
theorem bsearch_iff_mem :
    ∀ (n : Nat) (l : List Nat), l.length ≤ n → List.Sorted (· ≤ ·) l →
      ∀ t, (bsearch l t = true ↔ t ∈ l) := by
  intro n
  induction n with
  | zero =>
    intro l hl _ t
    have hnil : l = [] := List.eq_nil_of_length_eq_zero (by omega)
    subst hnil
    simp [bsearch]
  | succ n ih =>
    intro l hl hs t
    by_cases he : l = []
    · subst he
      simp [bsearch]
    · have hlen : 0 < l.length := List.length_pos.mpr he
      have hmid : l.length / 2 < l.length := Nat.div_lt_self hlen (by norm_num)
      have hgetD : l.getD (l.length / 2) 0 = l[l.length / 2] := by
        simp [List.getD_eq_getElem?_getD, List.getElem?_eq_getElem hmid]
      have hsort2 : List.Pairwise (· ≤ ·)
          (l.take (l.length / 2) ++ l.drop (l.length / 2)) := by
        rw [List.take_append_drop]
        exact hs
      rw [List.drop_eq_getElem_cons hmid, List.pairwise_append] at hsort2
      obtain ⟨hs1, hs2, hcross⟩ := hsort2
      rw [List.pairwise_cons] at hs2
      obtain ⟨hval, hs3⟩ := hs2
      have h0 : t ∈ l ↔ t ∈ l.take (l.length / 2) ++ l.drop (l.length / 2) := by
        rw [List.take_append_drop]
      have hmem : t ∈ l ↔
          t ∈ l.take (l.length / 2) ∨ t = l[l.length / 2] ∨ t ∈ l.drop (l.length / 2 + 1) := by
        rw [h0, List.drop_eq_getElem_cons hmid, List.mem_append, List.mem_cons]
      rw [bsearch]
      simp only [he, dite_false, hgetD]
      by_cases h1 : l[l.length / 2] < t
      · rw [if_pos h1]
        have hdl : (l.drop (l.length / 2 + 1)).length ≤ n := by
          simp only [List.length_drop]
          omega
        rw [ih _ hdl hs3 t, hmem]
        constructor
        · intro h
          right; right; exact h
        · rintro (h | h | h)
          · have hle : t ≤ l[l.length / 2] :=
              hcross t h (l[l.length / 2]) (List.mem_cons_self _ _)
            omega
          · omega
          · exact h
      · by_cases h2 : t < l[l.length / 2]
        · rw [if_neg h1, if_pos h2]
          have htl : (l.take (l.length / 2)).length ≤ n := by
            simp only [List.length_take]
            omega
          rw [ih _ htl hs1 t, hmem]
          constructor
          · intro h
            left; exact h
          · rintro (h | h | h)
            · exact h
            · omega
            · have hle : l[l.length / 2] ≤ t := hval t h
              omega
        · rw [if_neg h1, if_neg h2]
          have hteq : t = l[l.length / 2] := by omega
          simp [hmem, hteq]

/-- C2 counterexample: the claim asserts the snapshot is deduplicated, but the
    source calls `dedup()` before `sort()`, so only adjacent duplicates are
    removed: with slots `[1, 2, 1]` (remaining slots null) the snapshot is
    `[1, 1, 2]`, which contains a duplicate. -/
theorem scan_snapshot_not_dedup :
    ¬ (scan ([1, 2, 1] ++ List.replicate 61 0) []).snapshot.Nodup := by decide

/-- C2 amended: for every guard and every content of its retire list, `scan`
    builds a sorted snapshot of exactly the non-null pointers of the global
    table (duplicates that were not adjacent before sorting may remain), frees
    exactly the retired pointers absent from the snapshot, and keeps exactly
    the retired pointers present in it. -/
theorem scan_spec (p_list d_list : List Nat) :
    List.Sorted (· ≤ ·) (scan p_list d_list).snapshot
  ∧ (∀ x, x ∈ (scan p_list d_list).snapshot ↔ x ∈ p_list ∧ x ≠ 0)
  ∧ (scan p_list d_list).kept
      = d_list.filter (fun x => decide (x ∈ (scan p_list d_list).snapshot))
  ∧ (scan p_list d_list).freed
      = d_list.filter (fun x => decide (x ∉ (scan p_list d_list).snapshot)) := by
  have hsorted : List.Sorted (· ≤ ·) (scan p_list d_list).snapshot :=
    List.sorted_insertionSort (· ≤ ·) _
  have hmem : ∀ x, x ∈ (scan p_list d_list).snapshot ↔ x ∈ p_list ∧ x ≠ 0 := by
    intro x
    simp [scan, sortRs, mem_dedupRs, List.mem_filter]
  have hbs : ∀ x, bsearch (scan p_list d_list).snapshot x
      = decide (x ∈ (scan p_list d_list).snapshot) := by
    intro x
    by_cases hm : x ∈ (scan p_list d_list).snapshot
    · rw [decide_eq_true hm]
      exact (bsearch_iff_mem (scan p_list d_list).snapshot.length _ le_rfl hsorted x).mpr hm
    · rw [decide_eq_false hm]
      cases hbv : bsearch (scan p_list d_list).snapshot x with
      | false => rfl
      | true =>
        exact absurd
          ((bsearch_iff_mem (scan p_list d_list).snapshot.length _ le_rfl hsorted x).mp hbv) hm
  refine ⟨hsorted, hmem, ?_, ?_⟩
  · rw [show (scan p_list d_list).kept
        = d_list.filter (fun item => bsearch (scan p_list d_list).snapshot item) from rfl]
    exact List.filter_congr (fun x _ => hbs x)
  · rw [show (scan p_list d_list).freed
        = d_list.filter (fun item => !bsearch (scan p_list d_list).snapshot item) from rfl]
    refine List.filter_congr (fun x _ => ?_)
    rw [hbs x]
    by_cases hm : x ∈ (scan p_list d_list).snapshot <;> simp [hm]

end LockFreedom
